import Mathlib

/-!
Verification of the typed-mesh compiler of src/core/src/gl/typedMesh.h.

The embedding models the code over Nat and Int:
* vertex records and attribute values are byte lists (a vertex of type T is
  its sizeof(T) bytes);
* the GL vertex buffer is a flat byte list, the GL index buffer a list of
  GLushort values (stored modulo 2^16);
* size_t arithmetic is Nat arithmetic taken modulo 2^64 where the code can
  wrap (the byte-offset computation of updateVertices receives a C int that
  may be negative, converted to size_t);
* the C++ int fields of Range are Int.

State owned by the VboMesh base class (m_nVertices, m_nIndices,
m_vertexOffsets, the dirty range, MAX_INDEX_VALUE) is not part of src/; its
use inside typedMesh.h fixes its meaning, and the constant MAX_INDEX_VALUE
is modelled from the spec.
-/

namespace Tangram

/-- Modelled from the spec: MAX_INDEX_VALUE is defined in the vboMesh.h
base-class header, which is not part of the sources; the spec states it is
the largest representable 16-bit index + 1, i.e. 65536. -/
def MAX_INDEX_VALUE : Nat := 65536

/-- Modulus of a GLushort store (the index buffer element type). -/
def GLUSHORT_MOD : Nat := 65536

/-- Modulus of size_t arithmetic. -/
def SIZE_T_MOD : Nat := 2 ^ 64

/-- Conversion of a C int value to size_t (reduction modulo 2^64,
negative values wrap). -/
def toSizeT (i : Int) : Nat := (i % (SIZE_T_MOD : Int)).toNat

/-- Modelled from the spec: the Range type (util/types.h is not part of the
sources). A half-open vertex range with C int fields start and length. -/
structure Range where
  start : Int
  length : Int
deriving DecidableEq

/-- MeshData of typedMesh.h: per-batch (indexCount, vertexCount) offset
pairs, the vertex records (each vertex is its byte list), and the
concatenated local uint16 index stream. -/
structure MeshData where
  offsets : List (Nat × Nat)
  vertices : List (List Nat)
  indices : List Nat
deriving DecidableEq

/-- The observable state of a TypedMesh/VboMesh object: counts, the two GL
buffers, the draw-group list m_vertexOffsets, the compiled flag (the GL
vertex data pointer is non-null exactly when the mesh is compiled) and the
dirty range. -/
structure MeshState where
  compiled : Bool
  nVertices : Nat
  nIndices : Nat
  vertexData : List Nat
  indexData : List Nat
  vertexOffsets : List (Nat × Nat)
  dirty : Bool
  dirtyOffset : Nat
  dirtySize : Nat
deriving DecidableEq

/-! ## Byte-buffer primitives -/

/-- std::memcpy(buf + off, src, src.length): writes the bytes of src at
positions off, off+1, ... of buf (writes past the end of buf fall outside
the allocation; List.set leaves them unrepresented). -/
def memcpy (buf : List Nat) (off : Nat) (src : List Nat) : List Nat :=
  match src with
  | [] => buf
  | b :: bs => memcpy (buf.set off b) (off + 1) bs

/-- Number of iterations of the C loop
for (offset = start; offset < fin; offset += step), step > 0. -/
def loopIters (start fin step : Nat) : Nat := (fin - start + step - 1) / step

/-- The body sequence of that loop: k memcpy calls of the value v, the
write offset advancing by step each iteration. -/
def updLoop (v : List Nat) (step : Nat) : Nat → List Nat → Nat → List Nat
  | 0, buf, _ => buf
  | Nat.succ k, buf, off => updLoop v step k (memcpy buf off v) (off + step)

/-! ## setDirty (typedMesh.h lines 214-229) -/

/-- TypedMesh::setDirty: first marking records exactly the given byte
interval; later markings replace it with the bounding union. -/
def setDirty (m : MeshState) (byteOffset byteSize : Nat) : MeshState :=
  if m.dirty = false then
    { m with dirty := true, dirtySize := byteSize, dirtyOffset := byteOffset }
  else
    let e := max (m.dirtyOffset + m.dirtySize) (byteOffset + byteSize)
    let o := min m.dirtyOffset byteOffset
    { m with dirtyOffset := o, dirtySize := e - o }

/-! ## updateVertices (typedMesh.h lines 231-254) -/

/-- TypedMesh::updateVertices: broadcast one vertex value (v, its sizeof(T)
bytes) over the vertex range. Only the upper bound of the range is
validated; the byte offsets start and fin are computed in size_t
arithmetic, so a negative range start wraps modulo 2^64. -/
def updateVertices (m : MeshState) (r : Range) (v : List Nat) : MeshState :=
  if m.compiled = false then m
  else
    let tSize := v.length
    if r.start + r.length > (m.nVertices : Int) then m
    else
      let start := (toSizeT r.start * tSize) % SIZE_T_MOD
      let fin := (start + toSizeT r.length * tSize) % SIZE_T_MOD
      let buf := updLoop v tSize (loopIters start fin tSize) m.vertexData start
      setDirty { m with vertexData := buf } start ((fin + SIZE_T_MOD - start) % SIZE_T_MOD)

/-! ## updateAttribute (typedMesh.h lines 178-212) -/

/-- TypedMesh::updateAttribute: write the attribute value a (its sizeof(A)
bytes, sizeof(A) ≤ sizeof(T) by the static_assert) at byte offset
attribOffset inside every vertex of the range. Rejects start < 0,
length < 1, ranges past the end, and attribOffset ≥ sizeof(T). -/
def updateAttribute (m : MeshState) (r : Range) (a : List Nat) (tSize : Nat)
    (attribOffset : Nat) : MeshState :=
  if m.compiled = false then m
  else if r.start < 0 ∨ r.length < 1 then m
  else if (r.start + r.length).toNat > m.nVertices then m
  else if attribOffset ≥ tSize then m
  else
    let start := ((r.start.toNat * tSize) % SIZE_T_MOD + attribOffset) % SIZE_T_MOD
    let fin := (start + (r.length.toNat * tSize) % SIZE_T_MOD) % SIZE_T_MOD
    let buf := updLoop a tSize (loopIters start fin tSize) m.vertexData start
    setDirty { m with vertexData := buf } start
      (((r.length.toNat - 1) * tSize) % SIZE_T_MOD + a.length)

/-! ## compileIndices (typedMesh.h lines 64-89) -/

/-- The batch loop of TypedMesh::compileIndices. Arguments mirror the
locals of the source: the remaining offset pairs, the cursor src into the
mesh's index stream, curVertices, the back element of m_vertexOffsets
(curG, accumulated in place), the already-closed groups (most recent
first), and the emitted rebased GLushort stream. -/
def ciLoop (idxs : List Nat) :
    List (Nat × Nat) → Nat → Nat → Nat × Nat → List (Nat × Nat) → List Nat →
    (Nat × Nat) × List (Nat × Nat) × List Nat
  | [], _, _, curG, closedRev, out => (curG, closedRev, out)
  | (nI, nV) :: rest, src, cur, curG, closedRev, out =>
    if cur + nV > MAX_INDEX_VALUE then
      ciLoop idxs rest (src + nI) (0 + nV) (0 + nI, 0 + nV) (curG :: closedRev)
        (out ++ ((idxs.drop src).take nI).map (fun x => (x + 0) % GLUSHORT_MOD))
    else
      ciLoop idxs rest (src + nI) (cur + nV) (curG.1 + nI, curG.2 + nV) closedRev
        (out ++ ((idxs.drop src).take nI).map (fun x => (x + cur) % GLUSHORT_MOD))

/-- The draw-group list held in a ciLoop result: the closed groups in
closing order followed by the still-open back group. -/
def ciGroups (r : (Nat × Nat) × List (Nat × Nat) × List Nat) : List (Nat × Nat) :=
  r.2.1.reverse ++ [r.1]

/-- TypedMesh::compileIndices: opens a fresh (0,0) group at the back of
m_vertexOffsets, then runs the batch loop with curVertices = 0 and src = 0,
appending the rebased indices after the already-emitted stream. -/
def compileIndices (groups : List (Nat × Nat)) (data : MeshData) (out : List Nat) :
    List (Nat × Nat) × List Nat :=
  let r := ciLoop data.indices data.offsets 0 0 (0, 0) [] []
  (groups ++ ciGroups r, out ++ r.2.2)

/-! ## compile from grouped batches (typedMesh.h lines 91-122) -/

/-- TypedMesh::compile(const std::vector of MeshData): sums the counts,
copies the vertex bytes of the meshes contiguously (each vertex record is
stride bytes), and runs compileIndices once per mesh over the shared
m_vertexOffsets list and index buffer. A fresh mesh starts with empty
m_vertexOffsets and a clean dirty range. -/
def compile_meshes (meshes : List MeshData) : MeshState :=
  let r := meshes.foldl (fun acc m => compileIndices acc.1 m acc.2) ([], [])
  { compiled := true
    nVertices := (meshes.map (fun m => m.vertices.length)).sum
    nIndices := (meshes.map (fun m => m.indices.length)).sum
    vertexData := (meshes.map (fun m => m.vertices.flatten)).flatten
    indexData := r.2
    vertexOffsets := r.1
    dirty := false
    dirtyOffset := 0
    dirtySize := 0 }

/-! ## compile from parallel arrays (typedMesh.h lines 124-176) -/

/-- The feature loop of the parallel-arrays compile. It walks the
per-feature vertex arrays with the parallel per-feature index arrays,
carrying indexOffset, vertexOffset, the closed groups (in order, appended
at the back as in the source) and the emitted index stream. When
useIndices is false the index work is skipped entirely and only
vertexOffset accumulates. -/
def cbLoop (useIndices : Bool) :
    List (List (List Nat)) → List (List Nat) → Nat → Nat →
    List (Nat × Nat) → List Nat → Nat × Nat × List (Nat × Nat) × List Nat
  | [], _, indexOffset, vertexOffset, groups, out => (indexOffset, vertexOffset, groups, out)
  | curVertices :: vrest, irest, indexOffset, vertexOffset, groups, out =>
    let nVertices := curVertices.length
    if useIndices then
      let idxs := irest.headD []
      if vertexOffset + nVertices > MAX_INDEX_VALUE then
        cbLoop useIndices vrest irest.tail idxs.length (0 + nVertices)
          (groups ++ [(indexOffset, vertexOffset)])
          (out ++ idxs.map (fun x => (x + 0) % GLUSHORT_MOD))
      else
        cbLoop useIndices vrest irest.tail (indexOffset + idxs.length)
          (vertexOffset + nVertices) groups
          (out ++ idxs.map (fun x => (x + vertexOffset) % GLUSHORT_MOD))
    else
      cbLoop useIndices vrest irest.tail indexOffset (vertexOffset + nVertices) groups out

/-- TypedMesh::compile(vertices, indices): the parallel-arrays entry
point. m_nVertices and m_nIndices are set by the caller before the call
(they are parameters here); useIndices is m_nIndices > 0, and with no
indices the index buffer stays unallocated. The final
emplace_back(indexOffset, vertexOffset) closes the open group. -/
def compile_arrays (nVertices nIndices : Nat) (vertices : List (List (List Nat)))
    (indices : List (List Nat)) : MeshState :=
  let useIndices := decide (0 < nIndices)
  let r := cbLoop useIndices vertices indices 0 0 [] []
  { compiled := true
    nVertices := nVertices
    nIndices := nIndices
    vertexData := (vertices.map List.flatten).flatten
    indexData := r.2.2.2
    vertexOffsets := r.2.2.1 ++ [(r.1, r.2.1)]
    dirty := false
    dirtyOffset := 0
    dirtySize := 0 }

/-! ## Derived views used by the stated properties -/

/-- Cut the compiled index stream into the per-group spans: group i's span
is the segment of length (group i).indexCount following the spans of the
earlier groups; pair each span with the group's vertexCount. -/
def groupSpans : List (Nat × Nat) → List Nat → List (List Nat × Nat)
  | [], _ => []
  | (nI, nV) :: rest, idxData => (idxData.take nI, nV) :: groupSpans rest (idxData.drop nI)

/-- Input wellformedness of a batch list against its index stream: each
batch's declared indexCount is available in the stream and each of its
index values is below the batch's declared vertexCount (the per-batch
index invariant of the data model). -/
def batchesBounded : List (Nat × Nat) → List Nat → Bool
  | [], _ => true
  | (nI, nV) :: rest, l =>
    decide (nI ≤ l.length) && (l.take nI).all (fun x => decide (x < nV)) &&
      batchesBounded rest (l.drop nI)

/-! ## Byte-buffer lemmas -/

lemma getD_set_self (l : List Nat) (i a : Nat) (h : i < l.length) :
    (l.set i a).getD i 0 = a := by
  simp [List.getD_eq_getElem?_getD, List.getElem?_set_self, h]

lemma getD_set_ne (l : List Nat) (i j a : Nat) (h : i ≠ j) :
    (l.set i a).getD j 0 = l.getD j 0 := by
  simp [List.getD_eq_getElem?_getD, List.getElem?_set_ne h]

lemma memcpy_length : ∀ (src buf : List Nat) (off : Nat),
    (memcpy buf off src).length = buf.length
  | [], _, _ => rfl
  | b :: bs, buf, off => by
    rw [memcpy, memcpy_length bs]
    exact List.length_set buf off b

lemma memcpy_getD_outside : ∀ (src buf : List Nat) (off p : Nat),
    p < off ∨ off + src.length ≤ p →
    (memcpy buf off src).getD p 0 = buf.getD p 0
  | [], _, _, _, _ => rfl
  | b :: bs, buf, off, p, h => by
    rw [memcpy, memcpy_getD_outside bs]
    · exact getD_set_ne buf off p b (by rcases h with h | h <;> simp at h ⊢ <;> omega)
    · rcases h with h | h
      · exact Or.inl (by omega)
      · exact Or.inr (by simp at h ⊢; omega)

lemma memcpy_getD_inside : ∀ (src buf : List Nat) (off i : Nat),
    i < src.length → off + i < buf.length →
    (memcpy buf off src).getD (off + i) 0 = src.getD i 0
  | [], _, _, i, hi, _ => absurd hi (by simp)
  | b :: bs, buf, off, 0, _, hb => by
    rw [memcpy, memcpy_getD_outside bs _ _ _ (Or.inl (by omega))]
    simpa using getD_set_self buf off b (by omega)
  | b :: bs, buf, off, Nat.succ i, hi, hb => by
    have : off + (i + 1) = (off + 1) + i := by omega
    rw [memcpy, this, memcpy_getD_inside bs _ _ i (by simpa using hi)
      (by rw [List.length_set]; omega)]
    simp

lemma updLoop_length (v : List Nat) (step : Nat) : ∀ (k : Nat) (buf : List Nat) (off : Nat),
    (updLoop v step k buf off).length = buf.length
  | 0, _, _ => rfl
  | Nat.succ k, buf, off => by
    rw [updLoop, updLoop_length v step k]
    exact memcpy_length v buf off

lemma updLoop_getD_outside (v : List Nat) (step : Nat) : ∀ (k : Nat) (buf : List Nat) (off p : Nat),
    (∀ j, j < k → p < off + j * step ∨ off + j * step + v.length ≤ p) →
    (updLoop v step k buf off).getD p 0 = buf.getD p 0
  | 0, _, _, _, _ => rfl
  | Nat.succ k, buf, off, p, h => by
    rw [updLoop, updLoop_getD_outside v step k _ _ _ ?later]
    · exact memcpy_getD_outside v buf off p (by simpa using h 0 (Nat.succ_pos k))
    case later =>
      intro j hj
      have := h (j + 1) (by omega)
      rcases this with hl | hr
      · exact Or.inl (by rw [Nat.succ_mul] at hl; omega)
      · exact Or.inr (by rw [Nat.succ_mul] at hr; omega)

lemma updLoop_getD_inside (v : List Nat) (step : Nat) (hvs : v.length ≤ step) :
    ∀ (k : Nat) (buf : List Nat) (off j b : Nat), j < k → b < v.length →
    off + j * step + b < buf.length →
    (updLoop v step k buf off).getD (off + j * step + b) 0 = v.getD b 0
  | 0, _, _, j, _, hj, _, _ => absurd hj (by omega)
  | Nat.succ k, buf, off, 0, b, _, hb, hlen => by
    rw [updLoop, updLoop_getD_outside v step k _ _ _ ?later]
    · simpa using memcpy_getD_inside v buf off b hb (by simpa using hlen)
    case later =>
      intro j _
      left
      have h1 : off + 0 * step + b < off + step := by omega
      exact lt_of_lt_of_le h1 (Nat.le_add_right _ _)
  | Nat.succ k, buf, off, Nat.succ j, b, hj, hb, hlen => by
    simp only [Nat.succ_mul] at hlen ⊢
    rw [updLoop, show off + (j * step + step) + b = (off + step) + j * step + b from by omega,
      updLoop_getD_inside v step hvs k _ _ j b (by omega) hb
      (by rw [memcpy_length]; omega)]

lemma flatten_replicate_length (v : List Nat) (N : Nat) :
    (List.flatten (List.replicate N v)).length = N * v.length := by
  induction N with
  | zero => simp
  | succ n ih => simp [List.replicate_succ, ih, Nat.succ_mul]; omega

lemma flatten_replicate_getD (v : List Nat) :
    ∀ (N j b : Nat), j < N → b < v.length →
    (List.flatten (List.replicate N v)).getD (j * v.length + b) 0 = v.getD b 0
  | 0, j, _, hj, _ => absurd hj (by omega)
  | Nat.succ n, 0, b, _, hb => by
    rw [List.replicate_succ, List.flatten_cons]
    simpa using List.getD_append v _ 0 b hb
  | Nat.succ n, Nat.succ j, b, hj, hb => by
    rw [List.replicate_succ, List.flatten_cons]
    have harith : (j + 1) * v.length + b = v.length + (j * v.length + b) := by
      rw [Nat.succ_mul]; omega
    rw [harith, List.getD_append_right v _ 0 _ (by omega), Nat.add_sub_cancel_left]
    exact flatten_replicate_getD v n j b (by omega) hb

lemma compile_meshes_counts (meshes : List MeshData) :
    (compile_meshes meshes).nVertices = (meshes.map (fun m => m.vertices.length)).sum ∧
    (compile_meshes meshes).nIndices = (meshes.map (fun m => m.indices.length)).sum :=
  ⟨rfl, rfl⟩

/-! ## Accumulator-free views of the partition loop

ciLoop threads four accumulators; the following two recursions compute the
emitted index stream and the produced group list directly, and are proved
equal to the accumulated results. -/

/-- Rebased GLushort stream emitted by the batch loop, starting from the
running vertex count cur, consuming the not-yet-consumed index stream l. -/
def emitRec : List (Nat × Nat) → List Nat → Nat → List Nat
  | [], _, _ => []
  | (nI, nV) :: rest, l, cur =>
    if cur + nV > MAX_INDEX_VALUE then
      (l.take nI).map (fun x => (x + 0) % GLUSHORT_MOD) ++ emitRec rest (l.drop nI) (0 + nV)
    else
      (l.take nI).map (fun x => (x + cur) % GLUSHORT_MOD) ++ emitRec rest (l.drop nI) (cur + nV)

/-- Group list produced by the batch loop from the open back group curG
and running vertex count cur. -/
def groupsRec : List (Nat × Nat) → Nat → Nat × Nat → List (Nat × Nat)
  | [], _, curG => [curG]
  | (nI, nV) :: rest, cur, curG =>
    if cur + nV > MAX_INDEX_VALUE then
      curG :: groupsRec rest (0 + nV) (0 + nI, 0 + nV)
    else
      groupsRec rest (cur + nV) (curG.1 + nI, curG.2 + nV)

lemma ciLoop_groups (idxs : List Nat) : ∀ (offs : List (Nat × Nat)) (src cur : Nat)
    (curG : Nat × Nat) (closedRev : List (Nat × Nat)) (out : List Nat),
    ciGroups (ciLoop idxs offs src cur curG closedRev out) =
      closedRev.reverse ++ groupsRec offs cur curG
  | [], _, _, _, _, _ => by simp [ciLoop, ciGroups, groupsRec]
  | (nI, nV) :: rest, src, cur, curG, closedRev, out => by
    rw [ciLoop, groupsRec]
    by_cases h : cur + nV > MAX_INDEX_VALUE
    · rw [if_pos h, if_pos h, ciLoop_groups idxs rest]
      simp
    · rw [if_neg h, if_neg h, ciLoop_groups idxs rest]

lemma ciLoop_out (idxs : List Nat) : ∀ (offs : List (Nat × Nat)) (src cur : Nat)
    (curG : Nat × Nat) (closedRev : List (Nat × Nat)) (out : List Nat),
    (ciLoop idxs offs src cur curG closedRev out).2.2 =
      out ++ emitRec offs (idxs.drop src) cur
  | [], _, _, _, _, _ => by simp [ciLoop, emitRec]
  | (nI, nV) :: rest, src, cur, curG, closedRev, out => by
    rw [ciLoop, emitRec]
    have hdrop : idxs.drop (src + nI) = (idxs.drop src).drop nI := by
      rw [List.drop_drop, Nat.add_comm]
    by_cases h : cur + nV > MAX_INDEX_VALUE
    · rw [if_pos h, if_pos h, ciLoop_out idxs rest, hdrop, List.append_assoc]
    · rw [if_neg h, if_neg h, ciLoop_out idxs rest, hdrop, List.append_assoc]

lemma compileIndices_eq (groups : List (Nat × Nat)) (data : MeshData) (out : List Nat) :
    compileIndices groups data out =
      (groups ++ groupsRec data.offsets 0 (0, 0),
       out ++ emitRec data.offsets data.indices 0) := by
  rw [compileIndices]
  rw [show (ciLoop data.indices data.offsets 0 0 (0, 0) [] []).2.2 =
        emitRec data.offsets data.indices 0 from by
      rw [ciLoop_out]; simp]
  rw [show ciGroups (ciLoop data.indices data.offsets 0 0 (0, 0) [] []) =
        groupsRec data.offsets 0 (0, 0) from by
      rw [ciLoop_groups]; simp]

lemma compile_meshes_fold : ∀ (meshes : List MeshData) (groups : List (Nat × Nat))
    (out : List Nat),
    meshes.foldl (fun acc m => compileIndices acc.1 m acc.2) (groups, out) =
      (groups ++ (meshes.map (fun m => groupsRec m.offsets 0 (0, 0))).flatten,
       out ++ (meshes.map (fun m => emitRec m.offsets m.indices 0)).flatten)
  | [], groups, out => by simp
  | m :: rest, groups, out => by
    rw [List.foldl_cons, compileIndices_eq, compile_meshes_fold rest]
    simp

/-- Closed form of the group list and index stream of the grouped-batches
compile: one groupsRec run and one emitRec run per input mesh, each
restarted at cur = 0 with a fresh (0,0) back group. -/
lemma compile_meshes_closed (meshes : List MeshData) :
    (compile_meshes meshes).vertexOffsets =
      (meshes.map (fun m => groupsRec m.offsets 0 (0, 0))).flatten ∧
    (compile_meshes meshes).indexData =
      (meshes.map (fun m => emitRec m.offsets m.indices 0)).flatten := by
  rw [compile_meshes]
  rw [compile_meshes_fold meshes [] []]
  exact ⟨rfl, rfl⟩

/-! ## Sums, bounds and spans of the produced groups -/

lemma batchesBounded_cons {nI nV : Nat} {rest : List (Nat × Nat)} {l : List Nat} :
    batchesBounded ((nI, nV) :: rest) l = true ↔
      nI ≤ l.length ∧ (∀ x ∈ l.take nI, x < nV) ∧ batchesBounded rest (l.drop nI) = true := by
  simp [batchesBounded, List.all_eq_true, and_assoc]

lemma groupsRec_sum_fst : ∀ (offs : List (Nat × Nat)) (cur gI gV : Nat),
    ((groupsRec offs cur (gI, gV)).map Prod.fst).sum = gI + (offs.map Prod.fst).sum
  | [], _, _, _ => by simp [groupsRec]
  | (nI, nV) :: rest, cur, gI, gV => by
    rw [groupsRec]
    by_cases h : cur + nV > MAX_INDEX_VALUE
    · rw [if_pos h]
      simp only [List.map_cons, List.sum_cons, groupsRec_sum_fst rest]
      omega
    · rw [if_neg h]
      simp only [groupsRec_sum_fst rest, List.map_cons, List.sum_cons]
      omega

lemma groupsRec_sum_snd : ∀ (offs : List (Nat × Nat)) (cur gI gV : Nat),
    ((groupsRec offs cur (gI, gV)).map Prod.snd).sum = gV + (offs.map Prod.snd).sum
  | [], _, _, _ => by simp [groupsRec]
  | (nI, nV) :: rest, cur, gI, gV => by
    rw [groupsRec]
    by_cases h : cur + nV > MAX_INDEX_VALUE
    · rw [if_pos h]
      simp only [List.map_cons, List.sum_cons, groupsRec_sum_snd rest]
      omega
    · rw [if_neg h]
      simp only [groupsRec_sum_snd rest, List.map_cons, List.sum_cons]
      omega

lemma groupsRec_bounded : ∀ (offs : List (Nat × Nat)) (gI gV : Nat),
    (∀ b ∈ offs, b.2 ≤ MAX_INDEX_VALUE) → gV ≤ MAX_INDEX_VALUE →
    ∀ g ∈ groupsRec offs gV (gI, gV), g.2 ≤ MAX_INDEX_VALUE
  | [], gI, gV, _, hgv => by
    intro g hg
    simp [groupsRec] at hg
    simp [hg, hgv]
  | (nI, nV) :: rest, gI, gV, hb, hgv => by
    intro g hg
    rw [groupsRec] at hg
    by_cases h : gV + nV > MAX_INDEX_VALUE
    · rw [if_pos h] at hg
      rcases List.mem_cons.mp hg with h1 | h1
      · simp [h1, hgv]
      · have hnv : nV ≤ MAX_INDEX_VALUE := hb (nI, nV) (List.mem_cons_self _ _)
        have := groupsRec_bounded rest (0 + nI) (0 + nV)
          (fun b hb2 => hb b (List.mem_cons_of_mem _ hb2)) (by omega)
        exact this g (by simpa using h1)
    · rw [if_neg h] at hg
      have := groupsRec_bounded rest (gI + nI) (gV + nV)
        (fun b hb2 => hb b (List.mem_cons_of_mem _ hb2)) (by omega)
      exact this g hg

lemma emitRec_length : ∀ (offs : List (Nat × Nat)) (l : List Nat) (cur : Nat),
    batchesBounded offs l = true →
    (emitRec offs l cur).length = (offs.map Prod.fst).sum
  | [], _, _, _ => by simp [emitRec]
  | (nI, nV) :: rest, l, cur, hb => by
    obtain ⟨h1, _, h3⟩ := batchesBounded_cons.mp hb
    rw [emitRec]
    by_cases h : cur + nV > MAX_INDEX_VALUE
    · rw [if_pos h]
      simp only [List.length_append, List.length_map, List.length_take,
        emitRec_length rest _ _ h3, List.map_cons, List.sum_cons]
      omega
    · rw [if_neg h]
      simp only [List.length_append, List.length_map, List.length_take,
        emitRec_length rest _ _ h3, List.map_cons, List.sum_cons]
      omega

lemma groupSpans_append : ∀ (g1 g2 : List (Nat × Nat)) (d1 d2 : List Nat),
    (g1.map Prod.fst).sum = d1.length →
    groupSpans (g1 ++ g2) (d1 ++ d2) = groupSpans g1 d1 ++ groupSpans g2 d2
  | [], g2, d1, d2, h => by
    have : d1 = [] := List.eq_nil_of_length_eq_zero (by simpa using h.symm)
    simp [this, groupSpans]
  | (nI, nV) :: g1r, g2, d1, d2, h => by
    simp only [List.map_cons, List.sum_cons] at h
    have hle : nI ≤ d1.length := by omega
    rw [List.cons_append, groupSpans, groupSpans,
      List.take_append_eq_append_take, List.drop_append_eq_append_drop,
      Nat.sub_eq_zero_of_le hle, List.take_zero, List.append_nil, List.drop_zero,
      groupSpans_append g1r g2 (d1.drop nI) d2 (by simp; omega), List.cons_append]

lemma spans_ok : ∀ (offs : List (Nat × Nat)) (l : List Nat) (gI gV : Nat)
    (curEmit : List Nat),
    batchesBounded offs l = true →
    (∀ b ∈ offs, b.2 ≤ MAX_INDEX_VALUE) →
    gV ≤ MAX_INDEX_VALUE →
    curEmit.length = gI → (∀ x ∈ curEmit, x < gV) →
    ∀ p ∈ groupSpans (groupsRec offs gV (gI, gV)) (curEmit ++ emitRec offs l gV),
      ∀ x ∈ p.1, x < p.2
  | [], l, gI, gV, curEmit, _, _, _, hE, hEb => by
    intro p hp x hx
    simp only [groupsRec, emitRec, groupSpans, List.append_nil] at hp
    rcases List.mem_cons.mp hp with h | h
    · subst h
      simp only at hx
      rw [← hE, List.take_length] at hx
      exact hEb x hx
    · simp [groupSpans] at h
  | (nI, nV) :: rest, l, gI, gV, curEmit, hb, hmax, hgv, hE, hEb => by
    obtain ⟨hlen, hbound, hrest⟩ := batchesBounded_cons.mp hb
    have hnv : nV ≤ MAX_INDEX_VALUE := hmax (nI, nV) (List.mem_cons_self _ _)
    have hmaxr : ∀ b ∈ rest, b.2 ≤ MAX_INDEX_VALUE :=
      fun b h2 => hmax b (List.mem_cons_of_mem _ h2)
    rw [groupsRec, emitRec]
    by_cases h : gV + nV > MAX_INDEX_VALUE
    · rw [if_pos h, if_pos h]
      intro p hp x hx
      rw [groupSpans] at hp
      rcases List.mem_cons.mp hp with h1 | h1
      · subst h1
        simp only at hx
        rw [show curEmit ++ ((l.take nI).map (fun y => (y + 0) % GLUSHORT_MOD) ++
              emitRec rest (l.drop nI) (0 + nV)) =
            curEmit ++ ((l.take nI).map (fun y => (y + 0) % GLUSHORT_MOD) ++
              emitRec rest (l.drop nI) (0 + nV)) from rfl,
          List.take_append_eq_append_take, ← hE, Nat.sub_self, List.take_zero,
          List.append_nil, List.take_length] at hx
        exact hEb x hx
      · have hdrop : (curEmit ++ ((l.take nI).map (fun y => (y + 0) % GLUSHORT_MOD) ++
              emitRec rest (l.drop nI) (0 + nV))).drop gI =
            (l.take nI).map (fun y => (y + 0) % GLUSHORT_MOD) ++
              emitRec rest (l.drop nI) (0 + nV) := by
          rw [List.drop_append_eq_append_drop, ← hE, Nat.sub_self, List.drop_zero,
            List.drop_length, List.nil_append]
        rw [hdrop] at h1
        have hrec := spans_ok rest (l.drop nI) (0 + nI) (0 + nV)
          ((l.take nI).map (fun y => (y + 0) % GLUSHORT_MOD)) hrest hmaxr
          (by omega) (by simp [List.length_take]; omega) ?bnd
        case bnd =>
          intro y hy
          simp only [List.mem_map] at hy
          obtain ⟨z, hz, hzy⟩ := hy
          have hzlt : z < nV := hbound z hz
          have : (z + 0) % GLUSHORT_MOD = z := by
            apply Nat.mod_eq_of_lt
            have : MAX_INDEX_VALUE = GLUSHORT_MOD := rfl
            omega
          omega
        exact hrec p (by simpa using h1) x hx
    · rw [if_neg h, if_neg h]
      intro p hp x hx
      have hassoc : curEmit ++ ((l.take nI).map (fun y => (y + gV) % GLUSHORT_MOD) ++
            emitRec rest (l.drop nI) (gV + nV)) =
          (curEmit ++ (l.take nI).map (fun y => (y + gV) % GLUSHORT_MOD)) ++
            emitRec rest (l.drop nI) (gV + nV) := by
        rw [List.append_assoc]
      rw [hassoc] at hp
      have hrec := spans_ok rest (l.drop nI) (gI + nI) (gV + nV)
        (curEmit ++ (l.take nI).map (fun y => (y + gV) % GLUSHORT_MOD)) hrest hmaxr
        (by omega) (by simp [List.length_take]; omega) ?bnd
      case bnd =>
        intro y hy
        rcases List.mem_append.mp hy with h2 | h2
        · have := hEb y h2
          omega
        · simp only [List.mem_map] at h2
          obtain ⟨z, hz, hzy⟩ := h2
          have hzlt : z < nV := hbound z hz
          have hmod : (z + gV) % GLUSHORT_MOD = z + gV := by
            apply Nat.mod_eq_of_lt
            have : MAX_INDEX_VALUE = GLUSHORT_MOD := rfl
            omega
          omega
      exact hrec p hp x hx

/-! ## The parallel-arrays loop versus the grouped-batches loop -/

lemma cbLoop_noIndices : ∀ (vs : List (List (List Nat))) (is : List (List Nat))
    (iO vO : Nat) (G : List (Nat × Nat)) (out : List Nat),
    cbLoop false vs is iO vO G out =
      (iO, vO + (vs.map (fun v => v.length)).sum, G, out)
  | [], _, iO, vO, G, out => by simp [cbLoop]
  | v :: vr, is, iO, vO, G, out => by
    rw [cbLoop]
    simp only [Bool.false_eq_true, if_false]
    rw [cbLoop_noIndices vr]
    simp [Nat.add_assoc]

lemma cbLoop_eq_ciLoop : ∀ (vs : List (List (List Nat))) (is : List (List Nat)),
    is.length = vs.length →
    ∀ (pre : List Nat) (iO vO : Nat) (G : List (Nat × Nat)) (out : List Nat),
    ((cbLoop true vs is iO vO G out).2.2.1 ++
        [((cbLoop true vs is iO vO G out).1, (cbLoop true vs is iO vO G out).2.1)],
      (cbLoop true vs is iO vO G out).2.2.2) =
    (ciGroups (ciLoop (pre ++ is.flatten)
        (List.zipWith (fun v i => (i.length, v.length)) vs is)
        pre.length vO (iO, vO) G.reverse out),
      (ciLoop (pre ++ is.flatten)
        (List.zipWith (fun v i => (i.length, v.length)) vs is)
        pre.length vO (iO, vO) G.reverse out).2.2)
  | [], [], _, pre, iO, vO, G, out => by
    simp [cbLoop, ciLoop, ciGroups]
  | [], i :: ir, hlen, _, _, _, _, _ => by simp at hlen
  | v :: vr, [], hlen, _, _, _, _, _ => by simp at hlen
  | v :: vr, i :: ir, hlen, pre, iO, vO, G, out => by
    have hlen2 : ir.length = vr.length := by simpa using hlen
    have hslice : ((pre ++ (i :: ir).flatten).drop pre.length).take i.length = i := by
      rw [List.flatten_cons, List.drop_left, List.take_left]
    have hre : pre ++ (i :: ir).flatten = (pre ++ i) ++ ir.flatten := by
      rw [List.flatten_cons, List.append_assoc]
    rw [cbLoop, List.zipWith_cons_cons, ciLoop]
    simp only [if_true, List.headD_cons, List.tail_cons, hslice]
    by_cases h : vO + v.length > MAX_INDEX_VALUE
    · rw [if_pos h, if_pos h]
      simp only [Nat.zero_add]
      rw [hre]
      have hrev : (G ++ [(iO, vO)]).reverse = (iO, vO) :: G.reverse := by
        rw [List.reverse_append]; rfl
      have ih := cbLoop_eq_ciLoop vr ir hlen2 (pre ++ i) i.length v.length
        (G ++ [(iO, vO)]) (out ++ i.map (fun x => (x + 0) % GLUSHORT_MOD))
      rw [List.length_append, hrev] at ih
      exact ih
    · rw [if_neg h, if_neg h, hre]
      have ih := cbLoop_eq_ciLoop vr ir hlen2 (pre ++ i) (iO + i.length) (vO + v.length)
        G (out ++ i.map (fun x => (x + vO) % GLUSHORT_MOD))
      rw [List.length_append] at ih
      exact ih

lemma flatten_map_flatten : ∀ (vs : List (List (List Nat))),
    (vs.map List.flatten).flatten = vs.flatten.flatten
  | [] => rfl
  | v :: vr => by
    simp only [List.map_cons, List.flatten_cons, List.flatten_append,
      flatten_map_flatten vr]

/-- With indices present, the parallel-arrays compile agrees field by field
with the grouped-batches compile of the single MeshData holding the same
features: per-feature (indexCount, vertexCount) offset pairs, the
concatenated vertices and the concatenated index stream. -/
lemma compile_arrays_eq_single (vs : List (List (List Nat))) (is : List (List Nat))
    (hlen : is.length = vs.length) (nV nI : Nat) (hI : 0 < nI) :
    (compile_arrays nV nI vs is).vertexOffsets =
      (compile_meshes [⟨List.zipWith (fun v i => (i.length, v.length)) vs is,
        vs.flatten, is.flatten⟩]).vertexOffsets ∧
    (compile_arrays nV nI vs is).indexData =
      (compile_meshes [⟨List.zipWith (fun v i => (i.length, v.length)) vs is,
        vs.flatten, is.flatten⟩]).indexData ∧
    (compile_arrays nV nI vs is).vertexData =
      (compile_meshes [⟨List.zipWith (fun v i => (i.length, v.length)) vs is,
        vs.flatten, is.flatten⟩]).vertexData := by
  have hu : decide (0 < nI) = true := decide_eq_true hI
  have h := cbLoop_eq_ciLoop vs is hlen [] 0 0 [] []
  simp only [List.nil_append, List.length_nil, List.reverse_nil] at h
  have h1 := congrArg Prod.fst h
  have h2 := congrArg Prod.snd h
  simp only [] at h1 h2
  refine ⟨?_, ?_, ?_⟩
  · simp only [compile_arrays, compile_meshes, hu, List.foldl_cons, List.foldl_nil,
      compileIndices, List.nil_append]
    exact h1
  · simp only [compile_arrays, compile_meshes, hu, List.foldl_cons, List.foldl_nil,
      compileIndices, List.nil_append]
    exact h2
  · simp only [compile_arrays, compile_meshes, List.map_cons, List.map_nil,
      List.flatten_cons, List.flatten_nil, List.append_nil]
    exact flatten_map_flatten vs

/-! ## Small facts about setDirty -/

lemma setDirty_dirty (x : MeshState) (o s : Nat) : (setDirty x o s).dirty = true := by
  rcases hx : x.dirty with _ | _
  · simp [setDirty, hx]
  · simp [setDirty, hx]

lemma setDirty_vertexData (x : MeshState) (o s : Nat) :
    (setDirty x o s).vertexData = x.vertexData := by
  rcases hx : x.dirty with _ | _
  · simp [setDirty, hx]
  · simp [setDirty, hx]

/-! ## Claims -/

/-- C9: the dirty tracker keeps a single interval: the first markDirty
after a clear sets it to exactly the marked byte interval, every later
call before a clear replaces it with the bounding union (min of starts,
max of ends), and marking 10..20 then 100..110 leaves the single tracked
interval 10..110 of width 100. -/
theorem claim9_dirty_union (m : MeshState) (o s : Nat) :
    (m.dirty = false →
      (setDirty m o s).dirty = true ∧ (setDirty m o s).dirtyOffset = o ∧
        (setDirty m o s).dirtySize = s) ∧
    (m.dirty = true →
      (setDirty m o s).dirtyOffset = min m.dirtyOffset o ∧
        (setDirty m o s).dirtySize =
          max (m.dirtyOffset + m.dirtySize) (o + s) - min m.dirtyOffset o) ∧
    (m.dirty = false →
      (setDirty (setDirty m 10 10) 100 10).dirtyOffset = 10 ∧
        (setDirty (setDirty m 10 10) 100 10).dirtySize = 100) := by
  refine ⟨fun hd => ?_, fun hd => ?_, fun hd => ?_⟩
  · simp [setDirty, hd]
  · simp [setDirty, hd]
  · norm_num [setDirty, hd]

/-- Witness for C9 at a concrete clean state and a concrete dirty state. -/
theorem claim9_dirty_union_witness :
    ((setDirty ⟨true, 0, 0, [], [], [], false, 0, 0⟩ 3 5).dirty = true ∧
      (setDirty ⟨true, 0, 0, [], [], [], false, 0, 0⟩ 3 5).dirtyOffset = 3 ∧
      (setDirty ⟨true, 0, 0, [], [], [], false, 0, 0⟩ 3 5).dirtySize = 5) ∧
    ((setDirty ⟨true, 0, 0, [], [], [], true, 10, 10⟩ 100 10).dirtyOffset = min 10 100 ∧
      (setDirty ⟨true, 0, 0, [], [], [], true, 10, 10⟩ 100 10).dirtySize =
        max (10 + 10) (100 + 10) - min 10 100) ∧
    ((setDirty (setDirty ⟨true, 0, 0, [], [], [], false, 0, 0⟩ 10 10) 100 10).dirtyOffset = 10 ∧
      (setDirty (setDirty ⟨true, 0, 0, [], [], [], false, 0, 0⟩ 10 10) 100 10).dirtySize = 100) :=
  ⟨(claim9_dirty_union ⟨true, 0, 0, [], [], [], false, 0, 0⟩ 3 5).1 rfl,
   (claim9_dirty_union ⟨true, 0, 0, [], [], [], true, 10, 10⟩ 100 10).2.1 rfl,
   (claim9_dirty_union ⟨true, 0, 0, [], [], [], false, 0, 0⟩ 10 10).2.2 rfl⟩

/-- C7: updateVertices on a compiled mesh with range.start + range.length
greater than the vertex count is a silent no-op: no buffer mutation and
the dirty range is left exactly as it was. -/
theorem claim7_boundary_rejection (m : MeshState) (r : Range) (v : List Nat)
    (hc : m.compiled = true)
    (h : r.start + r.length > (m.nVertices : Int)) :
    updateVertices m r v = m := by
  rw [updateVertices, if_neg (by simp [hc]), if_pos h]

/-- Witness for C7: a 2-vertex mesh with the range 1..6 requested. -/
theorem claim7_boundary_rejection_witness :
    updateVertices ⟨true, 2, 0, [1, 1], [], [], false, 0, 0⟩ ⟨1, 5⟩ [9] =
      ⟨true, 2, 0, [1, 1], [], [], false, 0, 0⟩ :=
  claim7_boundary_rejection _ _ _ rfl (by decide)

/-- C4 counterexample: compiling from an empty mesh list is a compile from
an empty sequence of geometry batches, yet its group list is empty rather
than the single (0,0) group the claim requires (compileIndices, which
opens the initial group, never runs). -/
theorem claim4_counterexample :
    (compile_meshes []).nVertices = 0 ∧ (compile_meshes []).nIndices = 0 ∧
    (compile_meshes []).vertexOffsets = [] ∧
    ¬((compile_meshes []).vertexOffsets = [(0, 0)]) := by
  decide

/-- C4 amended: an empty compile yields vertexCount = 0, indexCount = 0,
and the group list is exactly the single (0,0) group for the
parallel-arrays path and for a mesh list that contains a mesh with no
batches; for the literally empty mesh list the group list is empty, since
the initial group is opened once per mesh, not once per compile. -/
theorem claim4_amended :
    (compile_arrays 0 0 [] []).nVertices = 0 ∧
    (compile_arrays 0 0 [] []).nIndices = 0 ∧
    (compile_arrays 0 0 [] []).vertexOffsets = [(0, 0)] ∧
    (compile_arrays 0 0 [] []).indexData = [] ∧
    (compile_meshes [⟨[], [], []⟩]).nVertices = 0 ∧
    (compile_meshes [⟨[], [], []⟩]).nIndices = 0 ∧
    (compile_meshes [⟨[], [], []⟩]).vertexOffsets = [(0, 0)] ∧
    (compile_meshes [⟨[], [], []⟩]).indexData = [] ∧
    (compile_meshes []).vertexOffsets = [] := by
  decide

/-- C3 counterexample: on the same two single-batch features, the
grouped-batches path (one MeshData per feature) restarts the open group
for each mesh, producing two groups and rebasing the second feature by 0,
while the parallel-arrays path continues the open group, producing one
group and rebasing the second feature by 1 - so neither the group lists
nor the rebased index streams agree, and partitioning state does not
persist across meshes. -/
theorem claim3_counterexample :
    (compile_meshes [⟨[(1, 1)], [[9]], [0]⟩, ⟨[(1, 1)], [[8]], [0]⟩]).vertexOffsets =
      [(1, 1), (1, 1)] ∧
    (compile_arrays 2 2 [[[9]], [[8]]] [[0], [0]]).vertexOffsets = [(2, 2)] ∧
    (compile_meshes [⟨[(1, 1)], [[9]], [0]⟩, ⟨[(1, 1)], [[8]], [0]⟩]).indexData = [0, 0] ∧
    (compile_arrays 2 2 [[[9]], [[8]]] [[0], [0]]).indexData = [0, 1] ∧
    ¬((compile_meshes [⟨[(1, 1)], [[9]], [0]⟩, ⟨[(1, 1)], [[8]], [0]⟩]).vertexOffsets =
        (compile_arrays 2 2 [[[9]], [[8]]] [[0], [0]]).vertexOffsets) ∧
    ¬((compile_meshes [⟨[(1, 1)], [[9]], [0]⟩, ⟨[(1, 1)], [[8]], [0]⟩]).indexData =
        (compile_arrays 2 2 [[[9]], [[8]]] [[0], [0]]).indexData) := by
  decide

/-- C10: updateVertices validates only the upper bound: with
range.start < 0 but range.start + range.length within the vertex count,
the call is not rejected - it reaches the write loop and the dirty-range
update, whose byte offset is computed from the negative start wrapped to
size_t - whereas updateAttribute rejects any range with start < 0 and any
range with length < 1 unchanged. -/
theorem claim10_lower_bound_unchecked (m : MeshState) (r : Range) (v a : List Nat)
    (tSize attribOffset : Nat)
    (hc : m.compiled = true) (hneg : r.start < 0)
    (hub : r.start + r.length ≤ (m.nVertices : Int)) :
    (updateVertices m r v).dirty = true ∧
    (m.dirty = false →
      (updateVertices m r v).dirtyOffset = (toSizeT r.start * v.length) % SIZE_T_MOD) ∧
    updateAttribute m r a tSize attribOffset = m ∧
    (∀ r2 : Range, r2.length < 1 → updateAttribute m r2 a tSize attribOffset = m) := by
  have hguard : ¬(r.start + r.length > (m.nVertices : Int)) := not_lt.mpr hub
  refine ⟨?_, ?_, ?_, ?_⟩
  · rw [updateVertices, if_neg (by simp [hc]), if_neg hguard]
    exact setDirty_dirty _ _ _
  · intro hd
    rw [updateVertices, if_neg (by simp [hc]), if_neg hguard, setDirty]
    simp [hd]
  · rw [updateAttribute, if_neg (by simp [hc]), if_pos (Or.inl hneg)]
  · intro r2 h2
    rw [updateAttribute, if_neg (by simp [hc]), if_pos (Or.inr h2)]

/-- Witness for C10: a 4-vertex mesh of 2-byte vertices, range start -1,
length 2. -/
theorem claim10_lower_bound_unchecked_witness :
    (updateVertices ⟨true, 4, 0, [1, 1, 1, 1, 1, 1, 1, 1], [], [], false, 0, 0⟩
        ⟨-1, 2⟩ [2, 2]).dirty = true ∧
    (updateVertices ⟨true, 4, 0, [1, 1, 1, 1, 1, 1, 1, 1], [], [], false, 0, 0⟩
        ⟨-1, 2⟩ [2, 2]).dirtyOffset = (toSizeT (-1) * 2) % SIZE_T_MOD ∧
    updateAttribute ⟨true, 4, 0, [1, 1, 1, 1, 1, 1, 1, 1], [], [], false, 0, 0⟩
        ⟨-1, 2⟩ [7, 7] 2 0 =
      ⟨true, 4, 0, [1, 1, 1, 1, 1, 1, 1, 1], [], [], false, 0, 0⟩ ∧
    updateAttribute ⟨true, 4, 0, [1, 1, 1, 1, 1, 1, 1, 1], [], [], false, 0, 0⟩
        ⟨0, 0⟩ [7, 7] 2 0 =
      ⟨true, 4, 0, [1, 1, 1, 1, 1, 1, 1, 1], [], [], false, 0, 0⟩ :=
  ⟨(claim10_lower_bound_unchecked _ ⟨-1, 2⟩ [2, 2] [7, 7] 2 0 rfl (by decide) (by decide)).1,
   (claim10_lower_bound_unchecked _ ⟨-1, 2⟩ [2, 2] [7, 7] 2 0 rfl (by decide) (by decide)).2.1 rfl,
   (claim10_lower_bound_unchecked _ ⟨-1, 2⟩ [2, 2] [7, 7] 2 0 rfl (by decide) (by decide)).2.2.1,
   (claim10_lower_bound_unchecked _ ⟨-1, 2⟩ [2, 2] [7, 7] 2 0 rfl (by decide) (by decide)).2.2.2
     ⟨0, 0⟩ (by decide)⟩

/-- C3 amended: the two entry points agree on a single-mesh input - the
parallel-arrays compile of per-feature arrays equals, field by field, the
grouped-batches compile of the one MeshData carrying the same features
(offsets, concatenated vertices, concatenated indices), provided indices
are present and the pre-set counts are consistent. Across several input
meshes they disagree: compileIndices opens a fresh group per mesh, so the
partitioning state restarts rather than persisting (see the
counterexample). -/
theorem claim3_amended (vs : List (List (List Nat))) (is : List (List Nat))
    (hlen : is.length = vs.length) (nV nI : Nat) (hI : 0 < nI)
    (hnV : nV = vs.flatten.length) (hnI : nI = is.flatten.length) :
    (compile_arrays nV nI vs is).vertexOffsets =
      (compile_meshes [⟨List.zipWith (fun v i => (i.length, v.length)) vs is,
        vs.flatten, is.flatten⟩]).vertexOffsets ∧
    (compile_arrays nV nI vs is).indexData =
      (compile_meshes [⟨List.zipWith (fun v i => (i.length, v.length)) vs is,
        vs.flatten, is.flatten⟩]).indexData ∧
    (compile_arrays nV nI vs is).vertexData =
      (compile_meshes [⟨List.zipWith (fun v i => (i.length, v.length)) vs is,
        vs.flatten, is.flatten⟩]).vertexData ∧
    (compile_arrays nV nI vs is).nVertices =
      (compile_meshes [⟨List.zipWith (fun v i => (i.length, v.length)) vs is,
        vs.flatten, is.flatten⟩]).nVertices ∧
    (compile_arrays nV nI vs is).nIndices =
      (compile_meshes [⟨List.zipWith (fun v i => (i.length, v.length)) vs is,
        vs.flatten, is.flatten⟩]).nIndices := by
  obtain ⟨h1, h2, h3⟩ := compile_arrays_eq_single vs is hlen nV nI hI
  refine ⟨h1, h2, h3, ?_, ?_⟩
  · simp [compile_arrays, compile_meshes, hnV]
  · simp [compile_arrays, compile_meshes, hnI]

/-- Witness for C3 amended at a two-feature input. -/
theorem claim3_amended_witness :
    (compile_arrays 2 2 [[[9]], [[8]]] [[0], [0]]).vertexOffsets =
      (compile_meshes [⟨[(1, 1), (1, 1)], [[9], [8]], [0, 0]⟩]).vertexOffsets ∧
    (compile_arrays 2 2 [[[9]], [[8]]] [[0], [0]]).indexData =
      (compile_meshes [⟨[(1, 1), (1, 1)], [[9], [8]], [0, 0]⟩]).indexData ∧
    (compile_arrays 2 2 [[[9]], [[8]]] [[0], [0]]).vertexData =
      (compile_meshes [⟨[(1, 1), (1, 1)], [[9], [8]], [0, 0]⟩]).vertexData ∧
    (compile_arrays 2 2 [[[9]], [[8]]] [[0], [0]]).nVertices =
      (compile_meshes [⟨[(1, 1), (1, 1)], [[9], [8]], [0, 0]⟩]).nVertices ∧
    (compile_arrays 2 2 [[[9]], [[8]]] [[0], [0]]).nIndices =
      (compile_meshes [⟨[(1, 1), (1, 1)], [[9], [8]], [0, 0]⟩]).nIndices :=
  claim3_amended [[[9]], [[8]]] [[0], [0]] rfl 2 2 (by decide) rfl rfl

/-- C2: compiling one batch of 70000 vertices with the increasing index
list 0..69999 (a single MeshData holding one batch descriptor) yields two
groups: the overflow check fires before the batch is placed, so the
always-opened first group stays empty (0 vertices, within the 65536 cap),
the whole batch lands in the second group, and the second group's indices
are rebased by 0 - its first stored index is 0, not 65536. Index values
are stored as GLushort, i.e. modulo 65536. -/
theorem claim2_overflow_split :
    (compile_meshes [⟨[(70000, 70000)], List.replicate 70000 [0],
        List.range 70000⟩]).vertexOffsets = [(0, 0), (70000, 70000)] ∧
    2 ≤ (compile_meshes [⟨[(70000, 70000)], List.replicate 70000 [0],
        List.range 70000⟩]).vertexOffsets.length ∧
    ((compile_meshes [⟨[(70000, 70000)], List.replicate 70000 [0],
        List.range 70000⟩]).vertexOffsets.headD (0, 0)).2 ≤ MAX_INDEX_VALUE ∧
    (compile_meshes [⟨[(70000, 70000)], List.replicate 70000 [0],
        List.range 70000⟩]).indexData.head? = some 0 ∧
    (compile_meshes [⟨[(70000, 70000)], List.replicate 70000 [0],
        List.range 70000⟩]).nVertices = 70000 ∧
    (compile_meshes [⟨[(70000, 70000)], List.replicate 70000 [0],
        List.range 70000⟩]).nIndices = 70000 := by
  have hg : (compile_meshes [⟨[(70000, 70000)], List.replicate 70000 [0],
      List.range 70000⟩]).vertexOffsets = [(0, 0), (70000, 70000)] := by
    rw [(compile_meshes_closed _).1]
    simp only [List.map_cons, List.map_nil, List.flatten_cons, List.flatten_nil,
      List.append_nil]
    rw [groupsRec, if_pos (by norm_num [MAX_INDEX_VALUE]), groupsRec]
  have htake : (List.range 70000).take 70000 = List.range 70000 :=
    List.take_of_length_le (le_of_eq (List.length_range 70000))
  have hi : (compile_meshes [⟨[(70000, 70000)], List.replicate 70000 [0],
      List.range 70000⟩]).indexData =
      (List.range 70000).map (fun x => (x + 0) % GLUSHORT_MOD) := by
    rw [(compile_meshes_closed _).2]
    simp only [List.map_cons, List.map_nil, List.flatten_cons, List.flatten_nil,
      List.append_nil]
    rw [emitRec, if_pos (by norm_num [MAX_INDEX_VALUE]), emitRec, htake,
      List.append_nil]
  refine ⟨hg, by rw [hg]; decide, by rw [hg]; decide, ?_, ?_, ?_⟩
  · rw [hi, show (70000 : Nat) = 69999 + 1 from rfl, List.range_succ_eq_map]
    rfl
  · rw [(compile_meshes_counts _).1]
    simp only [List.map_cons, List.map_nil, List.length_replicate, List.sum_cons,
      List.sum_nil, Nat.add_zero]
  · rw [(compile_meshes_counts _).2]
    simp only [List.map_cons, List.map_nil, List.length_range, List.sum_cons,
      List.sum_nil, Nat.add_zero]

/-! ## Conservation helper lemmas -/

lemma conservation_meshes : ∀ (meshes : List MeshData),
    (∀ m ∈ meshes, (m.offsets.map Prod.fst).sum = m.indices.length ∧
                   (m.offsets.map Prod.snd).sum = m.vertices.length) →
    (((meshes.map (fun m => groupsRec m.offsets 0 (0, 0))).flatten.map Prod.fst).sum =
        (meshes.map (fun m => m.indices.length)).sum ∧
     ((meshes.map (fun m => groupsRec m.offsets 0 (0, 0))).flatten.map Prod.snd).sum =
        (meshes.map (fun m => m.vertices.length)).sum)
  | [], _ => by simp
  | m :: rest, h => by
    obtain ⟨hm1, hm2⟩ := h m (List.mem_cons_self _ _)
    obtain ⟨hr1, hr2⟩ := conservation_meshes rest
      (fun x hx => h x (List.mem_cons_of_mem _ hx))
    simp only [List.map_cons, List.flatten_cons, List.map_append, List.sum_append,
      List.sum_cons]
    constructor
    · rw [hr1, groupsRec_sum_fst, hm1]
      omega
    · rw [hr2, groupsRec_sum_snd, hm2]
      omega

lemma zipWith_pairs_sum : ∀ (vs : List (List (List Nat))) (is : List (List Nat)),
    is.length = vs.length →
    ((List.zipWith (fun v i => (i.length, v.length)) vs is).map Prod.fst).sum =
        is.flatten.length ∧
    ((List.zipWith (fun v i => (i.length, v.length)) vs is).map Prod.snd).sum =
        vs.flatten.length
  | [], [], _ => by simp
  | [], i :: ir, h => by simp at h
  | v :: vr, [], h => by simp at h
  | v :: vr, i :: ir, h => by
    obtain ⟨h1, h2⟩ := zipWith_pairs_sum vr ir (by simpa using h)
    simp only [List.zipWith_cons_cons, List.map_cons, List.sum_cons, List.flatten_cons,
      List.length_append]
    omega

/-- C5: for both compile paths, the sums of indexCount and vertexCount
over the DrawGroups equal the mesh's total index and vertex counts. The
grouped-batches path needs the declared per-batch counts to match the
actual stream lengths (the assertion-level contract of the compiler); the
parallel-arrays path needs the caller-set counts to match the inputs. -/
theorem claim5_conservation :
    (∀ meshes : List MeshData,
      (∀ m ∈ meshes, (m.offsets.map Prod.fst).sum = m.indices.length ∧
                     (m.offsets.map Prod.snd).sum = m.vertices.length) →
      ((compile_meshes meshes).vertexOffsets.map Prod.fst).sum =
          (compile_meshes meshes).nIndices ∧
      ((compile_meshes meshes).vertexOffsets.map Prod.snd).sum =
          (compile_meshes meshes).nVertices) ∧
    (∀ (nV nI : Nat) (vs : List (List (List Nat))) (is : List (List Nat)),
      is.length = vs.length → nV = vs.flatten.length → nI = is.flatten.length →
      ((compile_arrays nV nI vs is).vertexOffsets.map Prod.fst).sum =
          (compile_arrays nV nI vs is).nIndices ∧
      ((compile_arrays nV nI vs is).vertexOffsets.map Prod.snd).sum =
          (compile_arrays nV nI vs is).nVertices) := by
  constructor
  · intro meshes h
    obtain ⟨h1, h2⟩ := conservation_meshes meshes h
    rw [(compile_meshes_closed meshes).1]
    exact ⟨h1.trans rfl, h2.trans rfl⟩
  · intro nV nI vs is hlen hnV hnI
    by_cases hI : 0 < nI
    · obtain ⟨hg, _, _⟩ := compile_arrays_eq_single vs is hlen nV nI hI
      obtain ⟨hz1, hz2⟩ := zipWith_pairs_sum vs is hlen
      have hwf : ∀ x ∈ [(⟨List.zipWith (fun v i => (i.length, v.length)) vs is,
          vs.flatten, is.flatten⟩ : MeshData)],
          (x.offsets.map Prod.fst).sum = x.indices.length ∧
          (x.offsets.map Prod.snd).sum = x.vertices.length := by
        intro x hx
        rcases List.mem_singleton.mp hx with rfl
        exact ⟨by simpa using hz1, by simpa using hz2⟩
      obtain ⟨h1, h2⟩ := conservation_meshes _ hwf
      constructor
      · rw [hg, (compile_meshes_closed _).1, h1]
        simp [compile_arrays, hnI]
      · rw [hg, (compile_meshes_closed _).1, h2]
        simp [compile_arrays, hnV]
    · have h0 : nI = 0 := by omega
      subst h0
      simp only [compile_arrays, show decide (0 < 0) = false from rfl, cbLoop_noIndices,
        List.nil_append, List.map_cons, List.map_nil, List.sum_cons, List.sum_nil]
      constructor
      · rfl
      · rw [hnV, List.length_flatten]
        simp

/-! ## Group-invariant helper lemma -/

lemma invariant_meshes : ∀ (meshes : List MeshData),
    (∀ m ∈ meshes, batchesBounded m.offsets m.indices = true) →
    (∀ m ∈ meshes, ∀ b ∈ m.offsets, b.2 ≤ MAX_INDEX_VALUE) →
    (∀ g ∈ (meshes.map (fun m => groupsRec m.offsets 0 (0, 0))).flatten,
        g.2 ≤ MAX_INDEX_VALUE) ∧
    (∀ p ∈ groupSpans ((meshes.map (fun m => groupsRec m.offsets 0 (0, 0))).flatten)
        ((meshes.map (fun m => emitRec m.offsets m.indices 0)).flatten),
        ∀ x ∈ p.1, x < p.2)
  | [], _, _ => by simp [groupSpans]
  | m :: rest, hb, hmax => by
    have hbm := hb m (List.mem_cons_self _ _)
    have hmaxm := hmax m (List.mem_cons_self _ _)
    obtain ⟨ih1, ih2⟩ := invariant_meshes rest
      (fun x hx => hb x (List.mem_cons_of_mem _ hx))
      (fun x hx => hmax x (List.mem_cons_of_mem _ hx))
    simp only [List.map_cons, List.flatten_cons]
    constructor
    · intro g hg
      rcases List.mem_append.mp hg with h1 | h1
      · exact groupsRec_bounded m.offsets 0 0 hmaxm (by omega) g h1
      · exact ih1 g h1
    · have hsum : ((groupsRec m.offsets 0 (0, 0)).map Prod.fst).sum =
          (emitRec m.offsets m.indices 0).length := by
        rw [groupsRec_sum_fst, emitRec_length _ _ _ hbm]
        omega
      intro p hp
      rw [groupSpans_append _ _ _ _ hsum] at hp
      rcases List.mem_append.mp hp with h1 | h1
      · have hs := spans_ok m.offsets m.indices 0 0 [] hbm hmaxm (by omega) rfl
          (by simp)
        exact hs p (by simpa using h1)
      · exact ih2 p h1

/-- C1 counterexample: a wellformed single batch of 65537 vertices and no
indices compiles (grouped-batches path) to the group list
[(0,0), (0,65537)]; the second DrawGroup's vertexCount exceeds
MAX_INDEX_VALUE, so the group bound of the claim fails. The partitioner
splits only at batch boundaries and never splits one batch. -/
theorem claim1_counterexample :
    (compile_meshes [⟨[(0, 65537)], List.replicate 65537 [], []⟩]).vertexOffsets =
      [(0, 0), (0, 65537)] ∧
    batchesBounded [(0, 65537)] [] = true ∧
    ¬(65537 ≤ MAX_INDEX_VALUE) := by
  refine ⟨?_, by decide, by decide⟩
  rw [(compile_meshes_closed _).1]
  simp only [List.map_cons, List.map_nil, List.flatten_cons, List.flatten_nil,
    List.append_nil]
  rw [groupsRec, if_pos (by norm_num [MAX_INDEX_VALUE]), groupsRec]

/-- C1 amended: provided every input batch has vertexCount at most
MAX_INDEX_VALUE and the per-batch index invariant holds (each declared
index count is available and each index is below its batch's declared
vertexCount), every DrawGroup of the grouped-batches compile - and of the
indexed parallel-arrays compile - has vertexCount at most MAX_INDEX_VALUE,
and every rebased index stored in a group's span of the index buffer is
strictly below that group's vertexCount. Without the per-batch bound a
single oversized batch produces an oversized group (see the
counterexample). -/
theorem claim1_group_bound_amended :
    (∀ meshes : List MeshData,
      (∀ m ∈ meshes, batchesBounded m.offsets m.indices = true) →
      (∀ m ∈ meshes, ∀ b ∈ m.offsets, b.2 ≤ MAX_INDEX_VALUE) →
      (∀ g ∈ (compile_meshes meshes).vertexOffsets, g.2 ≤ MAX_INDEX_VALUE) ∧
      (∀ p ∈ groupSpans (compile_meshes meshes).vertexOffsets
          (compile_meshes meshes).indexData, ∀ x ∈ p.1, x < p.2)) ∧
    (∀ (nV nI : Nat) (vs : List (List (List Nat))) (is : List (List Nat)),
      is.length = vs.length → 0 < nI →
      batchesBounded (List.zipWith (fun v i => (i.length, v.length)) vs is)
        is.flatten = true →
      (∀ b ∈ List.zipWith (fun v i => (i.length, v.length)) vs is,
        b.2 ≤ MAX_INDEX_VALUE) →
      (∀ g ∈ (compile_arrays nV nI vs is).vertexOffsets, g.2 ≤ MAX_INDEX_VALUE) ∧
      (∀ p ∈ groupSpans (compile_arrays nV nI vs is).vertexOffsets
          (compile_arrays nV nI vs is).indexData, ∀ x ∈ p.1, x < p.2)) := by
  constructor
  · intro meshes hb hmax
    obtain ⟨i1, i2⟩ := invariant_meshes meshes hb hmax
    rw [(compile_meshes_closed meshes).1, (compile_meshes_closed meshes).2]
    exact ⟨i1, i2⟩
  · intro nV nI vs is hlen hI hb hmax
    obtain ⟨hg, hd, _⟩ := compile_arrays_eq_single vs is hlen nV nI hI
    rw [hg, hd]
    obtain ⟨i1, i2⟩ := invariant_meshes
      [⟨List.zipWith (fun v i => (i.length, v.length)) vs is, vs.flatten, is.flatten⟩]
      (by intro x hx; rcases List.mem_singleton.mp hx with rfl; simpa using hb)
      (by intro x hx; rcases List.mem_singleton.mp hx with rfl; simpa using hmax)
    rw [(compile_meshes_closed _).1, (compile_meshes_closed _).2]
    exact ⟨i1, i2⟩

/-- Witness for C1 amended on a two-vertex batch via both entry points. -/
theorem claim1_group_bound_amended_witness :
    ((∀ g ∈ (compile_meshes [⟨[(2, 2)], [[1], [2]], [0, 1]⟩]).vertexOffsets,
        g.2 ≤ MAX_INDEX_VALUE) ∧
      (∀ p ∈ groupSpans (compile_meshes [⟨[(2, 2)], [[1], [2]], [0, 1]⟩]).vertexOffsets
          (compile_meshes [⟨[(2, 2)], [[1], [2]], [0, 1]⟩]).indexData,
        ∀ x ∈ p.1, x < p.2)) ∧
    ((∀ g ∈ (compile_arrays 2 2 [[[1], [2]]] [[0, 1]]).vertexOffsets,
        g.2 ≤ MAX_INDEX_VALUE) ∧
      (∀ p ∈ groupSpans (compile_arrays 2 2 [[[1], [2]]] [[0, 1]]).vertexOffsets
          (compile_arrays 2 2 [[[1], [2]]] [[0, 1]]).indexData, ∀ x ∈ p.1, x < p.2)) :=
  ⟨claim1_group_bound_amended.1 [⟨[(2, 2)], [[1], [2]], [0, 1]⟩] (by decide) (by decide),
   claim1_group_bound_amended.2 2 2 [[[1], [2]]] [[0, 1]] rfl (by decide) (by decide)
     (by decide)⟩

/-- Witness for C5 on concrete inputs for both entry points. -/
theorem claim5_conservation_witness :
    (((compile_meshes [⟨[(2, 2)], [[1], [2]], [0, 1]⟩]).vertexOffsets.map Prod.fst).sum =
        (compile_meshes [⟨[(2, 2)], [[1], [2]], [0, 1]⟩]).nIndices ∧
      ((compile_meshes [⟨[(2, 2)], [[1], [2]], [0, 1]⟩]).vertexOffsets.map Prod.snd).sum =
        (compile_meshes [⟨[(2, 2)], [[1], [2]], [0, 1]⟩]).nVertices) ∧
    (((compile_arrays 2 2 [[[1], [2]]] [[0, 1]]).vertexOffsets.map Prod.fst).sum =
        (compile_arrays 2 2 [[[1], [2]]] [[0, 1]]).nIndices ∧
      ((compile_arrays 2 2 [[[1], [2]]] [[0, 1]]).vertexOffsets.map Prod.snd).sum =
        (compile_arrays 2 2 [[[1], [2]]] [[0, 1]]).nVertices) :=
  ⟨claim5_conservation.1 [⟨[(2, 2)], [[1], [2]], [0, 1]⟩] (by decide),
   claim5_conservation.2 2 2 [[[1], [2]]] [[0, 1]] rfl rfl rfl⟩

/-! ## Reduction of the mutation operations at in-range arguments -/

lemma toSizeT_natCast (n : Nat) (h : n < SIZE_T_MOD) : toSizeT (n : Int) = n := by
  unfold toSizeT
  rw [Int.emod_eq_of_lt (Int.natCast_nonneg n) (by exact_mod_cast h)]
  exact Int.toNat_natCast n

lemma loopIters_exact (s k t : Nat) (ht : 0 < t) : loopIters s (s + k * t) t = k := by
  unfold loopIters
  have h1 : s + k * t - s + t - 1 = k * t + (t - 1) := by omega
  rw [h1, mul_comm k t, Nat.mul_add_div ht, Nat.div_eq_of_lt (by omega)]
  omega

lemma pos_lt_buflen (j b N t : Nat) (hj : j < N) (hb : b < t) : j * t + b < N * t := by
  calc j * t + b < j * t + t := by omega
  _ = (j + 1) * t := by rw [Nat.add_mul, Nat.one_mul]
  _ ≤ N * t := Nat.mul_le_mul_right t hj

/-- At a compiled mesh and an in-range request the size_t arithmetic of
updateVertices does not wrap: the call is the write loop over the range
followed by marking the touched byte span dirty. -/
lemma updateVertices_reduce (m : MeshState) (st len : Nat) (v : List Nat)
    (hc : m.compiled = true) (ht : 0 < v.length)
    (hrange : st + len ≤ m.nVertices) (hfit : m.nVertices * v.length < SIZE_T_MOD) :
    updateVertices m ⟨(st : Int), (len : Int)⟩ v =
      setDirty { m with vertexData := updLoop v v.length len m.vertexData (st * v.length) }
        (st * v.length) (len * v.length) := by
  have hNle : m.nVertices ≤ m.nVertices * v.length := Nat.le_mul_of_pos_right _ ht
  have hstart : st * v.length ≤ m.nVertices * v.length :=
    Nat.mul_le_mul_right _ (by omega)
  have hfin : st * v.length + len * v.length ≤ m.nVertices * v.length := by
    have h2 := Nat.mul_le_mul_right v.length hrange
    rw [Nat.add_mul] at h2
    omega
  rw [updateVertices, if_neg (by simp [hc])]
  dsimp only
  rw [if_neg (show ¬((st : Int) + (len : Int) > (m.nVertices : Int)) from by omega)]
  rw [toSizeT_natCast st (by omega), toSizeT_natCast len (by omega),
    Nat.mod_eq_of_lt (show st * v.length < SIZE_T_MOD from by omega),
    Nat.mod_eq_of_lt (show st * v.length + len * v.length < SIZE_T_MOD from by omega),
    loopIters_exact (st * v.length) len v.length ht,
    show st * v.length + len * v.length + SIZE_T_MOD - st * v.length =
      len * v.length + SIZE_T_MOD from by omega,
    Nat.add_mod_right,
    Nat.mod_eq_of_lt (show len * v.length < SIZE_T_MOD from by omega)]

/-- At a compiled mesh and an accepted request the size_t arithmetic of
updateAttribute does not wrap: the call is the strided write loop over the
range followed by the dirty marking of the source. -/
lemma updateAttribute_reduce (m : MeshState) (st len : Nat) (a : List Nat) (t k : Nat)
    (hc : m.compiled = true) (hlen : 0 < len) (ht : 0 < t)
    (hub : st + len ≤ m.nVertices) (hk : k < t)
    (hfit : (m.nVertices + 1) * t < SIZE_T_MOD) :
    updateAttribute m ⟨(st : Int), (len : Int)⟩ a t k =
      setDirty { m with vertexData := updLoop a t len m.vertexData (st * t + k) }
        (st * t + k) ((len - 1) * t + a.length) := by
  have hNt : (m.nVertices + 1) * t = m.nVertices * t + t := by
    rw [Nat.add_mul, Nat.one_mul]
  have hstt : st * t ≤ m.nVertices * t := Nat.mul_le_mul_right _ (by omega)
  have hsum : st * t + len * t ≤ m.nVertices * t := by
    have h2 := Nat.mul_le_mul_right t hub
    rw [Nat.add_mul] at h2
    omega
  have hl1 : (len - 1) * t ≤ m.nVertices * t := Nat.mul_le_mul_right _ (by omega)
  rw [updateAttribute, if_neg (by simp [hc])]
  dsimp only
  rw [if_neg (show ¬((st : Int) < 0 ∨ (len : Int) < 1) from by omega),
    if_neg (show ¬(((st : Int) + (len : Int)).toNat > m.nVertices) from by
      rw [← Nat.cast_add, Int.toNat_natCast]; omega),
    if_neg (show ¬(k ≥ t) from by omega)]
  rw [Int.toNat_natCast, Int.toNat_natCast,
    Nat.mod_eq_of_lt (show st * t < SIZE_T_MOD from by omega),
    Nat.mod_eq_of_lt (show st * t + k < SIZE_T_MOD from by omega),
    Nat.mod_eq_of_lt (show len * t < SIZE_T_MOD from by omega),
    Nat.mod_eq_of_lt (show st * t + k + len * t < SIZE_T_MOD from by omega),
    Nat.mod_eq_of_lt (show (len - 1) * t < SIZE_T_MOD from by omega),
    loopIters_exact (st * t + k) len t ht]

/-- C6: on a compiled mesh of N vertices all holding the byte pattern v0,
an in-range updateVertices (start at least 0, start + length at most N)
leaves v1 at every vertex of the range, v0 at every other vertex, and -
on a previously clean mesh - marks exactly the byte span from
start times sizeof(T) to (start + length) times sizeof(T) dirty. -/
theorem claim6_updateVertices_correct (N tSize st len : Nat) (v0 v1 : List Nat)
    (m : MeshState)
    (ht : 0 < tSize) (h0 : v0.length = tSize) (h1 : v1.length = tSize)
    (hc : m.compiled = true) (hN : m.nVertices = N)
    (hbuf : m.vertexData = (List.replicate N v0).flatten)
    (hclean : m.dirty = false)
    (hrange : st + len ≤ N) (hfit : N * tSize < SIZE_T_MOD) :
    (∀ j b, j < N → b < tSize →
      (updateVertices m ⟨(st : Int), (len : Int)⟩ v1).vertexData.getD (j * tSize + b) 0 =
        if st ≤ j ∧ j < st + len then v1.getD b 0 else v0.getD b 0) ∧
    (updateVertices m ⟨(st : Int), (len : Int)⟩ v1).dirty = true ∧
    (updateVertices m ⟨(st : Int), (len : Int)⟩ v1).dirtyOffset = st * tSize ∧
    (updateVertices m ⟨(st : Int), (len : Int)⟩ v1).dirtySize = len * tSize := by
  subst hN
  subst h1
  have hblen : m.vertexData.length = m.nVertices * v1.length := by
    rw [hbuf, flatten_replicate_length, h0]
  rw [updateVertices_reduce m st len v1 hc ht hrange hfit]
  refine ⟨?_, setDirty_dirty _ _ _, ?_, ?_⟩
  · intro j b hj hb
    rw [setDirty_vertexData]
    by_cases hcase : st ≤ j ∧ j < st + len
    · rw [if_pos hcase]
      have hjid : st + (j - st) = j := by omega
      have hjj : st * v1.length + (j - st) * v1.length + b = j * v1.length + b := by
        rw [← Nat.add_mul, hjid]
      rw [← hjj]
      exact updLoop_getD_inside v1 v1.length (le_refl _) len m.vertexData
        (st * v1.length) (j - st) b (by omega) hb
        (by rw [hblen, hjj]; exact pos_lt_buflen j b m.nVertices v1.length hj hb)
    · rw [if_neg hcase]
      rw [updLoop_getD_outside v1 v1.length len m.vertexData (st * v1.length)
        (j * v1.length + b) ?cond]
      · rw [hbuf, show j * v1.length + b = j * v0.length + b from by rw [h0]]
        exact flatten_replicate_getD v0 m.nVertices j b hj (by omega)
      case cond =>
        intro jj hjj
        rcases Nat.lt_or_ge j st with hjlt | hjge
        · left
          calc j * v1.length + b < (j + 1) * v1.length := by
                rw [Nat.add_mul, Nat.one_mul]; omega
          _ ≤ st * v1.length := Nat.mul_le_mul_right _ (by omega)
          _ ≤ st * v1.length + jj * v1.length := Nat.le_add_right _ _
        · right
          have hjge2 : st + len ≤ j := by
            rcases not_and_or.mp hcase with h | h <;> omega
          calc st * v1.length + jj * v1.length + v1.length
              = (st + jj + 1) * v1.length := by
                rw [Nat.add_mul, Nat.add_mul, Nat.one_mul]
          _ ≤ j * v1.length := Nat.mul_le_mul_right _ (by omega)
          _ ≤ j * v1.length + b := Nat.le_add_right _ _
  · rw [setDirty]
    simp [hclean]
  · rw [setDirty]
    simp [hclean]

/-- Witness for C6: 3 vertices of 2 bytes each, all 1-bytes, overwriting
vertex 1 with 2-bytes. -/
theorem claim6_updateVertices_correct_witness :
    ((updateVertices ⟨true, 3, 0, [1, 1, 1, 1, 1, 1], [], [], false, 0, 0⟩
        ⟨(1 : Nat), (1 : Nat)⟩ [2, 2]).vertexData.getD (1 * 2 + 0) 0 =
      if 1 ≤ 1 ∧ 1 < 1 + 1 then [2, 2].getD 0 0 else [1, 1].getD 0 0) ∧
    ((updateVertices ⟨true, 3, 0, [1, 1, 1, 1, 1, 1], [], [], false, 0, 0⟩
        ⟨(1 : Nat), (1 : Nat)⟩ [2, 2]).vertexData.getD (0 * 2 + 1) 0 =
      if 1 ≤ 0 ∧ 0 < 1 + 1 then [2, 2].getD 1 0 else [1, 1].getD 1 0) ∧
    (updateVertices ⟨true, 3, 0, [1, 1, 1, 1, 1, 1], [], [], false, 0, 0⟩
        ⟨(1 : Nat), (1 : Nat)⟩ [2, 2]).dirty = true ∧
    (updateVertices ⟨true, 3, 0, [1, 1, 1, 1, 1, 1], [], [], false, 0, 0⟩
        ⟨(1 : Nat), (1 : Nat)⟩ [2, 2]).dirtyOffset = 1 * 2 ∧
    (updateVertices ⟨true, 3, 0, [1, 1, 1, 1, 1, 1], [], [], false, 0, 0⟩
        ⟨(1 : Nat), (1 : Nat)⟩ [2, 2]).dirtySize = 1 * 2 :=
  ⟨(claim6_updateVertices_correct 3 2 1 1 [1, 1] [2, 2] _ (by decide) rfl rfl rfl rfl
      (by decide) rfl (by decide) (by decide)).1 1 0 (by decide) (by decide),
   (claim6_updateVertices_correct 3 2 1 1 [1, 1] [2, 2] _ (by decide) rfl rfl rfl rfl
      (by decide) rfl (by decide) (by decide)).1 0 1 (by decide) (by decide),
   (claim6_updateVertices_correct 3 2 1 1 [1, 1] [2, 2] _ (by decide) rfl rfl rfl rfl
      (by decide) rfl (by decide) (by decide)).2.1,
   (claim6_updateVertices_correct 3 2 1 1 [1, 1] [2, 2] _ (by decide) rfl rfl rfl rfl
      (by decide) rfl (by decide) (by decide)).2.2.1,
   (claim6_updateVertices_correct 3 2 1 1 [1, 1] [2, 2] _ (by decide) rfl rfl rfl rfl
      (by decide) rfl (by decide) (by decide)).2.2.2⟩

/-- C8: an accepted updateAttribute call changes no byte outside the
per-vertex attribute windows: the buffer keeps its length, and every byte
position lying in no window vertex*stride + attribOffset ..
vertex*stride + attribOffset + sizeof(A) of a vertex in the range is left
unaltered. -/
theorem claim8_attribute_isolation (m : MeshState) (st len : Nat) (a : List Nat)
    (tSize k : Nat)
    (hc : m.compiled = true) (hlen : 0 < len) (ht : 0 < tSize)
    (ha : a.length ≤ tSize) (hub : st + len ≤ m.nVertices) (hk : k < tSize)
    (hfit : (m.nVertices + 1) * tSize < SIZE_T_MOD) :
    (updateAttribute m ⟨(st : Int), (len : Int)⟩ a tSize k).vertexData.length =
      m.vertexData.length ∧
    (∀ p, (∀ vtx, st ≤ vtx → vtx < st + len →
        ¬(vtx * tSize + k ≤ p ∧ p < vtx * tSize + k + a.length)) →
      (updateAttribute m ⟨(st : Int), (len : Int)⟩ a tSize k).vertexData.getD p 0 =
        m.vertexData.getD p 0) := by
  rw [updateAttribute_reduce m st len a tSize k hc hlen ht hub hk hfit]
  constructor
  · rw [setDirty_vertexData]
    exact updLoop_length a tSize len m.vertexData (st * tSize + k)
  · intro p hp
    rw [setDirty_vertexData]
    apply updLoop_getD_outside
    intro jj hjj
    have hv := hp (st + jj) (by omega) (by omega)
    have heq : (st + jj) * tSize + k = st * tSize + k + jj * tSize := by
      rw [Nat.add_mul]; omega
    rw [heq] at hv
    omega

/-- Witness for C8: 3 vertices of stride 4, attribute of 2 bytes at
offset 1 written to vertices 0 and 1; byte 3 (inside vertex 0 but outside
its window) is untouched. -/
theorem claim8_attribute_isolation_witness :
    (updateAttribute ⟨true, 3, 0, [0, 0, 0, 0, 0, 0, 0, 0, 0, 0, 0, 0], [], [],
        false, 0, 0⟩ ⟨(0 : Nat), (2 : Nat)⟩ [7, 7] 4 1).vertexData.length =
      (⟨true, 3, 0, [0, 0, 0, 0, 0, 0, 0, 0, 0, 0, 0, 0], [], [],
        false, 0, 0⟩ : MeshState).vertexData.length ∧
    (updateAttribute ⟨true, 3, 0, [0, 0, 0, 0, 0, 0, 0, 0, 0, 0, 0, 0], [], [],
        false, 0, 0⟩ ⟨(0 : Nat), (2 : Nat)⟩ [7, 7] 4 1).vertexData.getD 3 0 =
      (⟨true, 3, 0, [0, 0, 0, 0, 0, 0, 0, 0, 0, 0, 0, 0], [], [],
        false, 0, 0⟩ : MeshState).vertexData.getD 3 0 :=
  ⟨(claim8_attribute_isolation _ 0 2 [7, 7] 4 1 rfl (by decide) (by decide) (by decide)
      (by decide) (by decide) (by decide)).1,
   (claim8_attribute_isolation _ 0 2 [7, 7] 4 1 rfl (by decide) (by decide) (by decide)
      (by decide) (by decide) (by decide)).2 3
     (by intro vtx h1 h2; simp only [List.length_cons, List.length_nil]; omega)⟩

end Tangram
